import Mathlib

set_option maxRecDepth 100000

/-!
Verification development for `tools/anvil_set_erc20_balance.py`.

The script discovers the storage slot index of an ERC20 `balances` mapping on a
development node by probing candidate indices: for each index it derives the
mapping storage key, reads the current word, writes the desired word, re-reads
the balance via `eth_call`, and either stops (match) or restores the original
word and continues.

Shallow embedding conventions:
- Python `str` is embedded as `List Char`; Python `bytes` as `List Nat`
  (each element a byte value < 256 by construction).
- `keccak256` is an external cryptographic collaborator; every definition that
  uses it takes the hash as an explicit parameter `H : List Nat → List Nat`.
- Python functions that can raise are embedded with `Except PyErr` / `Option`.
- The JSON-RPC layer is embedded as an abstract stateful handler
  `σ → RpcCall → Option (List Char × σ)`; `none` models a raised exception
  (transport failure or JSON-RPC error object), `some (result, s')` a
  successful call returning the JSON `result` string.
- `main` is embedded as `runMain`, which threads the handler state and records
  the ordered trace of attempted RPC calls and the lines printed to stdout
  (stderr messages are not recorded; no claim concerns their text).
- `bytes.fromhex` is embedded as strict hex-digit pairs (the CPython extra of
  skipping ASCII whitespace between bytes is not modelled; no input in any
  claim contains interior whitespace).  `int(s, 16)` is embedded with optional
  surrounding whitespace and an optional `0x`/`0X` tag (signs and underscores,
  accepted by CPython, are not modelled; no claim depends on them).
-/

/-- Python exception kinds the script can raise while encoding: `ValueError`
(bad address length, non-hex input, negative integer) and `OverflowError`
(`int.to_bytes` on a value not fitting in 32 bytes). -/
inductive PyErr where
  | valueError : PyErr
  | overflowError : PyErr
deriving DecidableEq, Repr

/-- Value of one hex digit character, `none` for a non-hex character. -/
def hexDigitVal (c : Char) : Option Nat :=
  if '0' ≤ c ∧ c ≤ '9' then some (c.toNat - '0'.toNat)
  else if 'a' ≤ c ∧ c ≤ 'f' then some (c.toNat - 'a'.toNat + 10)
  else if 'A' ≤ c ∧ c ≤ 'F' then some (c.toNat - 'A'.toNat + 10)
  else none

/-- Decode a hex string as consecutive digit pairs, one byte per pair
(embeds `bytes.fromhex`; fails on odd length or a non-hex character). -/
def hexPairsToBytes : List Char → Option (List Nat)
  | [] => some []
  | [_] => none
  | c1 :: c2 :: rest =>
    match hexDigitVal c1, hexDigitVal c2, hexPairsToBytes rest with
    | some h, some l, some bs => some ((16 * h + l) :: bs)
    | _, _, _ => none

/-- Lowercase hex character of a value < 16. -/
def hexChar (n : Nat) : Char :=
  if n < 10 then Char.ofNat ('0'.toNat + n) else Char.ofNat ('a'.toNat + n - 10)

/-- Two lowercase hex characters of one byte. -/
def byteToHex (b : Nat) : List Char :=
  [hexChar (b / 16), hexChar (b % 16)]

/-- Lowercase hex rendering of a byte string (embeds `bytes.hex()`). -/
def bytesToHexChars (bs : List Nat) : List Char :=
  (bs.map byteToHex).flatten

/-- Python `str.strip()`: drop whitespace from both ends. -/
def pyStrip (s : List Char) : List Char :=
  ((s.dropWhile Char.isWhitespace).reverse.dropWhile Char.isWhitespace).reverse

/-- Embeds `zpad32`: left-pad a byte string with zero bytes to length 32
(`bytes.rjust(32, b"\x00")`; returned unchanged when already longer). -/
def zpad32 (b : List Nat) : List Nat :=
  List.replicate (32 - b.length) 0 ++ b

/-- Embeds `hex_to_bytes`: strip whitespace, drop a leading `0x`, left-pad an
odd-length digit string with one `0` nibble, then decode digit pairs. -/
def hex_to_bytes (h : List Char) : Option (List Nat) :=
  let h1 := pyStrip h
  let h2 := if h1.take 2 = ['0', 'x'] then h1.drop 2 else h1
  let h3 := if h2.length % 2 = 1 then '0' :: h2 else h2
  hexPairsToBytes h3

/-- Embeds `bytes_to_hex`: `"0x" + b.hex()`. -/
def bytes_to_hex (b : List Nat) : List Char :=
  '0' :: 'x' :: bytesToHexChars b

/-- Embeds `addr_to_bytes32`: decode the address, require exactly 20 bytes
(else `ValueError`), zero-pad to 32 bytes.  A hex-decoding failure is the
`ValueError` that `bytes.fromhex` raises. -/
def addr_to_bytes32 (addr : List Char) : Except PyErr (List Nat) :=
  match hex_to_bytes addr with
  | none => .error .valueError
  | some b => if b.length = 20 then .ok (zpad32 b) else .error .valueError

/-- Big-endian byte string of fixed length `len` for a value `v < 256 ^ len`. -/
def natToBE : Nat → Nat → List Nat
  | 0, _ => []
  | len + 1, v => natToBE len (v / 256) ++ [v % 256]

/-- Embeds `int_to_bytes32`: `ValueError` on a negative index, then
`i.to_bytes(32, "big")`, which raises `OverflowError` above `2^256 - 1`. -/
def int_to_bytes32 (i : Int) : Except PyErr (List Nat) :=
  if i < 0 then .error .valueError
  else if i < 2 ^ 256 then .ok (natToBE 32 i.toNat)
  else .error .overflowError

/-- Embeds `int_to_storage_word`: `ValueError` on a negative amount, then the
`0x`-prefixed hex of `v.to_bytes(32, "big")`, which raises `OverflowError`
above `2^256 - 1`. -/
def int_to_storage_word (v : Int) : Except PyErr (List Char) :=
  if v < 0 then .error .valueError
  else if v < 2 ^ 256 then .ok ('0' :: 'x' :: bytesToHexChars (natToBE 32 v.toNat))
  else .error .overflowError

/-- ASCII bytes of a string (embeds `b"..."` literals). -/
def asciiBytes (s : List Char) : List Nat :=
  s.map Char.toNat

/-- Embeds `encode_balance_of`: 4-byte selector of `balanceOf(address)`
followed by the 32-byte padded account, as a hex string.  `H` is the keccak-256
collaborator. -/
def encode_balance_of (H : List Nat → List Nat) (account : List Char) :
    Except PyErr (List Char) :=
  match addr_to_bytes32 account with
  | .error e => .error e
  | .ok a32 => .ok (bytes_to_hex ((H (asciiBytes "balanceOf(address)".toList)).take 4 ++ a32))

/-- Accumulating hex-digit parse; `none` on a non-hex character. -/
def parseHexCore : List Char → Nat → Option Nat
  | [], acc => some acc
  | c :: cs, acc =>
    match hexDigitVal c with
    | none => none
    | some d => parseHexCore cs (16 * acc + d)

/-- Embeds `int(s, 16)` on the inputs the script meets: optional surrounding
whitespace, optional `0x`/`0X` tag, then at least one hex digit. -/
def parseHexInt (s : List Char) : Option Nat :=
  let t0 := pyStrip s
  let t := if t0.take 2 = ['0', 'x'] ∨ t0.take 2 = ['0', 'X'] then t0.drop 2 else t0
  if t = [] then none else parseHexCore t 0

/-- Storage key derived in the probe loop for one candidate index:
`bytes_to_hex (keccak256 (addr_to_bytes32 account + int_to_bytes32 i)))`,
with the Python evaluation order of the raised exceptions. -/
def storageKeyOfIndex (H : List Nat → List Nat) (account : List Char) (i : Int) :
    Except PyErr (List Char) :=
  match addr_to_bytes32 account with
  | .error e => .error e
  | .ok a32 =>
    match int_to_bytes32 i with
    | .error e => .error e
    | .ok i32 => .ok (bytes_to_hex (H (a32 ++ i32)))

/-- JSON-RPC requests the script issues, with their parameters.  `ethCall`
carries the `to` address and the call data, `getStorage` the contract and
storage key, `setStorage` (the privileged `anvil_setStorageAt`) the contract,
storage key and the 32-byte word to write. -/
inductive RpcCall where
  | ethCall (token data : List Char) : RpcCall
  | getStorage (token key : List Char) : RpcCall
  | setStorage (token key word : List Char) : RpcCall
deriving DecidableEq, Repr

/-- Result of running `main`: a `return`ed exit code, or a Python exception
that escapes `main` uncaught (the interpreter then prints a traceback; none of
the script's declared exit paths is taken). -/
inductive MainResult where
  | exit (code : Nat) : MainResult
  | uncaught (e : PyErr) : MainResult
deriving DecidableEq, Repr

/-- Observable outcome of a run: the result, the ordered trace of attempted
RPC calls (a call that raises is still attempted, and is recorded), the lines
printed to stdout, and the final handler state. -/
structure RunOut (σ : Type) where
  result : MainResult
  trace : List RpcCall
  out : List (List Char)
  state : σ

/-- Stdout line `balanceOf(before) = {n}` (f-string rendered by hand). -/
def beforeLine (n : Nat) : List Char :=
  "balanceOf(before) = ".toList ++ Nat.toDigits 10 n

/-- Stdout line `OK: found balances mapping slot index = {i}`. -/
def okLine (i : Nat) : List Char :=
  "OK: found balances mapping slot index = ".toList ++ Nat.toDigits 10 i

/-- Stdout line `storage key = {key}`. -/
def keyLine (key : List Char) : List Char :=
  "storage key = ".toList ++ key

/-- Stdout line `balanceOf(after) = {n}`. -/
def afterLine (n : Nat) : List Char :=
  "balanceOf(after) = ".toList ++ Nat.toDigits 10 n

/-- Static data of one run threaded through the probe loop: hash collaborator,
RPC handler, CLI token and account strings, the `balanceOf` call data, the
encoded desired word, and the desired amount. -/
structure Ctx (σ : Type) where
  H : List Nat → List Nat
  handler : σ → RpcCall → Option (List Char × σ)
  token : List Char
  account : List Char
  callData : List Char
  desiredWord : List Char
  amount : Int

/-- Probe loop of `main` over the remaining candidate indices.  Each iteration
derives the key, reads the old word, writes the desired word, re-reads the
balance, and on a mismatch writes the old word back; any handler failure stops
the run with exit code 2 and the failing call last in the trace. -/
def probeLoop (ctx : Ctx σ) : List Nat → σ → List RpcCall → List (List Char) → RunOut σ
  | [], s, tr, out => ⟨.exit 1, tr, out, s⟩
  | i :: rest, s, tr, out =>
    match storageKeyOfIndex ctx.H ctx.account (i : Int) with
    | .error e => ⟨.uncaught e, tr, out, s⟩
    | .ok key =>
      let cGet := RpcCall.getStorage ctx.token key
      match ctx.handler s cGet with
      | none => ⟨.exit 2, tr ++ [cGet], out, s⟩
      | some (oldWord, s1) =>
        let cSet := RpcCall.setStorage ctx.token key ctx.desiredWord
        match ctx.handler s1 cSet with
        | none => ⟨.exit 2, tr ++ [cGet, cSet], out, s1⟩
        | some (_, s2) =>
          let cCall := RpcCall.ethCall ctx.token ctx.callData
          match ctx.handler s2 cCall with
          | none => ⟨.exit 2, tr ++ [cGet, cSet, cCall], out, s2⟩
          | some (afterHex, s3) =>
            match parseHexInt afterHex with
            | none => ⟨.exit 2, tr ++ [cGet, cSet, cCall], out, s3⟩
            | some af =>
              if (af : Int) = ctx.amount then
                ⟨.exit 0, tr ++ [cGet, cSet, cCall],
                 out ++ [okLine i, keyLine key, afterLine af], s3⟩
              else
                let cRes := RpcCall.setStorage ctx.token key oldWord
                match ctx.handler s3 cRes with
                | none => ⟨.exit 2, tr ++ [cGet, cSet, cCall, cRes], out, s3⟩
                | some (_, s4) =>
                  probeLoop ctx rest s4 (tr ++ [cGet, cSet, cCall, cRes]) out

/-- Embeds `main` after argument parsing: encode the `balanceOf` call data
(an encoding failure here precedes every RPC call and escapes uncaught), issue
the initial `eth_call` sanity probe (failure: exit 2), parse and print the
before-balance, encode the desired word (a failure here escapes uncaught), then
run the probe loop over indices `range(max_slot + 1)`. -/
def runMain (H : List Nat → List Nat) (handler : σ → RpcCall → Option (List Char × σ))
    (s0 : σ) (token account : List Char) (amount maxSlot : Int) : RunOut σ :=
  match encode_balance_of H account with
  | .error e => ⟨.uncaught e, [], [], s0⟩
  | .ok callData =>
    let c0 := RpcCall.ethCall token callData
    match handler s0 c0 with
    | none => ⟨.exit 2, [c0], [], s0⟩
    | some (beforeHex, s1) =>
      match parseHexInt beforeHex with
      | none => ⟨.exit 2, [c0], [], s1⟩
      | some before =>
        match int_to_storage_word amount with
        | .error e => ⟨.uncaught e, [c0], [beforeLine before], s1⟩
        | .ok desiredWord =>
          probeLoop ⟨H, handler, token, account, callData, desiredWord, amount⟩
            (List.range (maxSlot + 1).toNat) s1 [c0] [beforeLine before]

/-- Word an anvil-style node returns for a never-written storage cell. -/
def zeroWord : List Char :=
  '0' :: 'x' :: List.replicate 64 '0'

/-- Mock node for the end-to-end scenarios: a total storage map from key
strings to word strings, and the one storage key whose word `balanceOf`
reports (the cell of the account's balance in the token's true layout). -/
structure MockNode where
  store : List Char → List Char
  balKey : List Char

/-- Handler of the mock node: `eth_call` returns the word at the balance key,
`eth_getStorageAt` returns the word at the requested key, `anvil_setStorageAt`
updates the map and returns a dummy result.  No call fails. -/
def mockHandler : MockNode → RpcCall → Option (List Char × MockNode)
  | n, .ethCall _ _ => some (n.store n.balKey, n)
  | n, .getStorage _ key => some (n.store key, n)
  | n, .setStorage _ key word =>
    some ("0x1".toList, ⟨fun x => if x = key then word else n.store x, n.balKey⟩)

/-- Storage key the probe derives for byte-address `b` (20 bytes) and index
`i`, written out as the spec describes it: hash of the 64-byte concatenation
of the left-zero-padded address and the 32-byte big-endian index. -/
def specKey (H : List Nat → List Nat) (b : List Nat) (i : Nat) : List Char :=
  '0' :: 'x' :: bytesToHexChars (H ((List.replicate 12 0 ++ b) ++ natToBE 32 i))

/-- RPC calls of one non-matching probe iteration at index `i` against a node
whose storage map is (pointwise) `st`: read the key, write the desired word,
re-check the balance, restore the saved original word. -/
def probeBlock (H : List Nat → List Nat) (b : List Nat) (st : List Char → List Char)
    (token callData desiredWord : List Char) (i : Nat) : List RpcCall :=
  [.getStorage token (specKey H b i),
   .setStorage token (specKey H b i) desiredWord,
   .ethCall token callData,
   .setStorage token (specKey H b i) (st (specKey H b i))]

/-! Helper lemmas about the encoders. -/

lemma natToBE_length (len v : Nat) : (natToBE len v).length = len := by
  induction len generalizing v with
  | zero => rfl
  | succ len ih => simp [natToBE, ih]

lemma natToBE_lt (len v : Nat) : ∀ x ∈ natToBE len v, x < 256 := by
  induction len generalizing v with
  | zero => simp [natToBE]
  | succ len ih =>
    intro x hx
    rw [natToBE] at hx
    rcases List.mem_append.1 hx with h | h
    · exact ih _ x h
    · simp only [List.mem_singleton] at h
      subst h
      exact Nat.mod_lt _ (by norm_num)

lemma hexDigitVal_hexChar (n : Nat) (h : n < 16) : hexDigitVal (hexChar n) = some n := by
  interval_cases n <;> decide

lemma hexChar_not_ws (n : Nat) (h : n < 16) : (hexChar n).isWhitespace = false := by
  interval_cases n <;> decide

lemma bytesToHexChars_cons (x : Nat) (bs : List Nat) :
    bytesToHexChars (x :: bs) =
      hexChar (x / 16) :: hexChar (x % 16) :: bytesToHexChars bs := by
  simp [bytesToHexChars, byteToHex]

lemma bytesToHexChars_length (bs : List Nat) :
    (bytesToHexChars bs).length = 2 * bs.length := by
  induction bs with
  | nil => rfl
  | cons x bs ih => rw [bytesToHexChars_cons]; simp [ih]; omega

lemma bytesToHexChars_not_ws (bs : List Nat) (hall : ∀ x ∈ bs, x < 256) :
    ∀ c ∈ bytesToHexChars bs, c.isWhitespace = false := by
  induction bs with
  | nil => simp [bytesToHexChars]
  | cons x bs ih =>
    intro c hc
    rw [bytesToHexChars_cons] at hc
    have hx : x < 256 := hall x (by simp)
    rw [List.mem_cons, List.mem_cons] at hc
    rcases hc with h | h | h
    · exact h ▸ hexChar_not_ws _ (by omega)
    · exact h ▸ hexChar_not_ws _ (by omega)
    · exact ih (fun y hy => hall y (List.mem_cons_of_mem _ hy)) c h

lemma dropWhile_eq_self_of_all (p : Char → Bool) (l : List Char)
    (h : ∀ c ∈ l, p c = false) : l.dropWhile p = l := by
  cases l with
  | nil => rfl
  | cons c cs =>
    rw [List.dropWhile_cons, if_neg]
    simp [h c (by simp)]

lemma pyStrip_eq_self (l : List Char) (h : ∀ c ∈ l, c.isWhitespace = false) :
    pyStrip l = l := by
  unfold pyStrip
  rw [dropWhile_eq_self_of_all _ _ h,
      dropWhile_eq_self_of_all _ _ (fun c hc => h c (List.mem_reverse.1 hc)),
      List.reverse_reverse]

lemma parseHexCore_cons (c : Char) (cs : List Char) (acc d : Nat)
    (h : hexDigitVal c = some d) :
    parseHexCore (c :: cs) acc = parseHexCore cs (16 * acc + d) := by
  simp [parseHexCore, h]

lemma parseHexCore_bytesToHexChars (bs : List Nat) (hall : ∀ x ∈ bs, x < 256) :
    ∀ acc : Nat, parseHexCore (bytesToHexChars bs) acc =
      some (bs.foldl (fun a x => 256 * a + x) acc) := by
  induction bs with
  | nil => intro acc; rfl
  | cons x bs ih =>
    intro acc
    have hx : x < 256 := hall x (by simp)
    rw [bytesToHexChars_cons]
    rw [parseHexCore_cons _ _ _ _ (hexDigitVal_hexChar _ (by omega))]
    rw [parseHexCore_cons _ _ _ _ (hexDigitVal_hexChar _ (by omega))]
    have e : 16 * (16 * acc + x / 16) + x % 16 = 256 * acc + x := by omega
    rw [e, ih (fun y hy => hall y (List.mem_cons_of_mem _ hy))]
    rfl

lemma foldl_natToBE (len : Nat) : ∀ v acc : Nat, v < 256 ^ len →
    (natToBE len v).foldl (fun a x => 256 * a + x) acc = acc * 256 ^ len + v := by
  induction len with
  | zero =>
    intro v acc h
    simp [natToBE]
    omega
  | succ len ih =>
    intro v acc h
    have hdiv : v / 256 < 256 ^ len := by
      rw [Nat.div_lt_iff_lt_mul (by norm_num)]
      calc v < 256 ^ (len + 1) := h
        _ = 256 ^ len * 256 := by rw [pow_succ]
    rw [natToBE, List.foldl_append, ih (v / 256) acc hdiv]
    simp only [List.foldl_cons, List.foldl_nil]
    have hv := Nat.div_add_mod v 256
    calc 256 * (acc * 256 ^ len + v / 256) + v % 256
        = (acc * 256 ^ len + v / 256) * 256 + v % 256 := by ring
      _
        = acc * (256 ^ len * 256) + (256 * (v / 256) + v % 256) := by ring
      _ = acc * 256 ^ (len + 1) + v := by rw [hv, ← pow_succ]

lemma pow_256_32 : (256 : Nat) ^ 32 = 2 ^ 256 := by norm_num

lemma parseHexInt_word (v : Nat) (h : v < 2 ^ 256) :
    parseHexInt ('0' :: 'x' :: bytesToHexChars (natToBE 32 v)) = some v := by
  have hws : ∀ c ∈ '0' :: 'x' :: bytesToHexChars (natToBE 32 v), c.isWhitespace = false := by
    intro c hc
    rw [List.mem_cons, List.mem_cons] at hc
    rcases hc with h | h | h
    · subst h; decide
    · subst h; decide
    · exact bytesToHexChars_not_ws _ (natToBE_lt 32 v) c h
  have hne : bytesToHexChars (natToBE 32 v) ≠ [] := by
    intro he
    have := bytesToHexChars_length (natToBE 32 v)
    rw [he, natToBE_length] at this
    simp at this
  have ht : List.take 2 ('0' :: 'x' :: bytesToHexChars (natToBE 32 v)) = ['0', 'x'] := rfl
  have hd : List.drop 2 ('0' :: 'x' :: bytesToHexChars (natToBE 32 v)) =
      bytesToHexChars (natToBE 32 v) := by simp
  simp only [parseHexInt]
  rw [pyStrip_eq_self _ hws, ht, hd]
  rw [if_pos (Or.inl rfl), if_neg hne]
  rw [parseHexCore_bytesToHexChars _ (natToBE_lt 32 v),
      foldl_natToBE 32 v 0 (by rw [pow_256_32]; exact h)]
  simp

lemma addr_to_bytes32_ok (account : List Char) (b : List Nat)
    (hb : hex_to_bytes account = some b) (hlen : b.length = 20) :
    addr_to_bytes32 account = .ok (List.replicate 12 0 ++ b) := by
  unfold addr_to_bytes32
  rw [hb]
  simp [hlen, zpad32]

lemma int_to_bytes32_of_nat (i : Nat) (hi : i < 2 ^ 256) :
    int_to_bytes32 (i : Int) = .ok (natToBE 32 i) := by
  unfold int_to_bytes32
  rw [if_neg (by omega), if_pos (by exact_mod_cast hi)]
  simp

lemma storageKeyOfIndex_ok (H : List Nat → List Nat) (account : List Char)
    (b : List Nat) (i : Nat)
    (hb : hex_to_bytes account = some b) (hlen : b.length = 20) (hi : i < 2 ^ 256) :
    storageKeyOfIndex H account (i : Int) = .ok (specKey H b i) := by
  unfold storageKeyOfIndex
  rw [addr_to_bytes32_ok account b hb hlen, int_to_bytes32_of_nat i hi]
  rfl

lemma encode_balance_of_ok (H : List Nat → List Nat) (account : List Char)
    (b : List Nat) (hb : hex_to_bytes account = some b) (hlen : b.length = 20) :
    encode_balance_of H account =
      .ok (bytes_to_hex ((H (asciiBytes "balanceOf(address)".toList)).take 4
            ++ (List.replicate 12 0 ++ b))) := by
  unfold encode_balance_of
  rw [addr_to_bytes32_ok account b hb hlen]

/-- C2: for a 20-byte account address and a slot index `0 ≤ i < 2^256`, the
derived storage key is the keccak-256 digest of the 64-byte concatenation of
the address left-zero-padded to 32 bytes and the index as 32 big-endian bytes,
rendered as a `0x`-prefixed hex string; the big-endian bytes decode back to
`i` in base 256. -/
theorem c2_storage_key_derivation (H : List Nat → List Nat) (account : List Char)
    (b : List Nat) (i : Int)
    (hb : hex_to_bytes account = some b) (hlen : b.length = 20)
    (h0 : 0 ≤ i) (hi : i < 2 ^ 256) :
    storageKeyOfIndex H account i = .ok (specKey H b i.toNat)
    ∧ (List.replicate 12 0 ++ b).length = 32
    ∧ List.replicate 12 0 ++ b = zpad32 b
    ∧ (natToBE 32 i.toNat).length = 32
    ∧ (natToBE 32 i.toNat).foldl (fun a x => 256 * a + x) 0 = i.toNat
    ∧ ((List.replicate 12 0 ++ b) ++ natToBE 32 i.toNat).length = 64 := by
  have hnat : i.toNat < 2 ^ 256 := by omega
  have hofnat : (i.toNat : Int) = i := by omega
  refine ⟨?_, ?_, ?_, natToBE_length 32 _, ?_, ?_⟩
  · rw [← hofnat]
    exact storageKeyOfIndex_ok H account b i.toNat hb hlen hnat
  · simp [hlen]
  · simp [zpad32, hlen]
  · rw [foldl_natToBE 32 i.toNat 0 (by rw [pow_256_32]; exact hnat)]
    simp
  · simp [hlen, natToBE_length]

/-- C8: the amounts `0` and `2^256 - 1` each encode to a 32-byte big-endian
storage word that decodes back to the original integer. -/
theorem c8_storage_word_roundtrip :
    (∃ w, int_to_storage_word 0 = .ok w ∧ parseHexInt w = some 0) ∧
    (∃ w, int_to_storage_word (2 ^ 256 - 1) = .ok w ∧
      parseHexInt w = some (2 ^ 256 - 1)) := by
  constructor
  · refine ⟨'0' :: 'x' :: bytesToHexChars (natToBE 32 0), ?_, ?_⟩
    · unfold int_to_storage_word
      rw [if_neg (by norm_num), if_pos (by norm_num)]
      rfl
    · exact parseHexInt_word 0 (by norm_num)
  · refine ⟨'0' :: 'x' :: bytesToHexChars (natToBE 32 (2 ^ 256 - 1)), ?_, ?_⟩
    · unfold int_to_storage_word
      rw [if_neg (by norm_num), if_pos (by norm_num)]
      have : ((2 : Int) ^ 256 - 1).toNat = 2 ^ 256 - 1 := by
        omega
      rw [this]
    · exact parseHexInt_word _ (by norm_num)

/-- C4: when the account address decodes to a byte string whose length is not
20, `main` fails with the encoding `ValueError` before issuing any RPC call:
the trace is empty and no declared exit path is taken. -/
theorem c4_bad_address_rejected {σ : Type} (H : List Nat → List Nat)
    (handler : σ → RpcCall → Option (List Char × σ)) (s0 : σ)
    (token account : List Char) (amount maxSlot : Int) (b : List Nat)
    (hb : hex_to_bytes account = some b) (hlen : b.length ≠ 20) :
    runMain H handler s0 token account amount maxSlot
      = ⟨.uncaught .valueError, [], [], s0⟩ := by
  unfold runMain encode_balance_of addr_to_bytes32
  rw [hb]
  simp [hlen]

/-- C5: when the initial `balanceOf` `eth_call` fails, `main` returns exit
status 2, the trace holds that single call, and no storage-write RPC call was
ever issued. -/
theorem c5_initial_call_failure {σ : Type} (H : List Nat → List Nat)
    (handler : σ → RpcCall → Option (List Char × σ)) (s0 : σ)
    (token account callData : List Char) (amount maxSlot : Int)
    (hcd : encode_balance_of H account = .ok callData)
    (hfail : handler s0 (RpcCall.ethCall token callData) = none) :
    runMain H handler s0 token account amount maxSlot
      = ⟨.exit 2, [RpcCall.ethCall token callData], [], s0⟩
    ∧ ∀ t k w, RpcCall.setStorage t k w
        ∉ (runMain H handler s0 token account amount maxSlot).trace := by
  have hmain : runMain H handler s0 token account amount maxSlot
      = ⟨.exit 2, [RpcCall.ethCall token callData], [], s0⟩ := by
    unfold runMain
    rw [hcd]
    simp [hfail]
  refine ⟨hmain, ?_⟩
  intro t k w
  rw [hmain]
  simp

/-- Concrete token address string used in closed runs. -/
def tokW : List Char := "0xdeadbeef00112233445566778899aabbccddeeff".toList

/-- Concrete valid (20-byte) account address string used in closed runs. -/
def accW : List Char := "0x00112233445566778899aabbccddeeff00112233".toList

/-- Concrete stand-in for the keccak-256 collaborator in closed runs; keeping
the last 32 input bytes makes the derived keys of distinct indices distinct. -/
def hashW : List Nat → List Nat := fun b => b.drop 32

/-- Mock node for closed runs: zero storage, balance cell at a key no probe
derives. -/
def nodeW : MockNode := ⟨fun _ => zeroWord, ['k']⟩

/-- C3 (amended): encoding a negative amount or a negative slot index fails
with the encoding `ValueError`; in `main` the negative-amount failure is only
reached after the initial `balanceOf` `eth_call` has been issued, so exactly
that one RPC call precedes it and no storage read or write is ever issued. -/
theorem c3_negative_inputs_amended {σ : Type} (H : List Nat → List Nat)
    (handler : σ → RpcCall → Option (List Char × σ)) (s0 s1 : σ)
    (token account callData r : List Char) (amount maxSlot : Int) (b0 : Nat)
    (hcd : encode_balance_of H account = .ok callData)
    (h0 : handler s0 (RpcCall.ethCall token callData) = some (r, s1))
    (hparse : parseHexInt r = some b0)
    (hneg : amount < 0) :
    int_to_storage_word amount = .error .valueError
    ∧ (∀ i : Int, i < 0 → int_to_bytes32 i = .error .valueError)
    ∧ runMain H handler s0 token account amount maxSlot
        = ⟨.uncaught .valueError, [RpcCall.ethCall token callData],
           [beforeLine b0], s1⟩ := by
  have hw : int_to_storage_word amount = .error .valueError := by
    unfold int_to_storage_word
    rw [if_pos hneg]
  refine ⟨hw, ?_, ?_⟩
  · intro i hi
    unfold int_to_bytes32
    rw [if_pos hi]
  · unfold runMain
    rw [hcd]
    simp [h0, hparse, hw]

/-- C3 (counterexample): with a valid account and amount `-1` against a
responsive node, the run fails with the encoding `ValueError` but its trace is
not empty — an RPC request (the initial `eth_call`) was issued before the
failure, refuting that the failure precedes every network call. -/
theorem c3_counterexample :
    (runMain hashW mockHandler nodeW tokW accW (-1) 2).result
        = .uncaught .valueError
    ∧ (runMain hashW mockHandler nodeW tokW accW (-1) 2).trace ≠ [] := by
  constructor
  · rfl
  · decide

/-- C10: an amount of `2^256` or more fails to encode with `OverflowError`;
in `main` this failure is raised after the initial balance read has been
issued and before any storage-write call, and it escapes `main` uncaught, so
none of the declared exit statuses is returned. -/
theorem c10_amount_overflow {σ : Type} (H : List Nat → List Nat)
    (handler : σ → RpcCall → Option (List Char × σ)) (s0 s1 : σ)
    (token account callData r : List Char) (amount maxSlot : Int) (b0 : Nat)
    (hcd : encode_balance_of H account = .ok callData)
    (h0 : handler s0 (RpcCall.ethCall token callData) = some (r, s1))
    (hparse : parseHexInt r = some b0)
    (hbig : 2 ^ 256 ≤ amount) :
    int_to_storage_word amount = .error .overflowError
    ∧ runMain H handler s0 token account amount maxSlot
        = ⟨.uncaught .overflowError, [RpcCall.ethCall token callData],
           [beforeLine b0], s1⟩
    ∧ ∀ c : Nat, (runMain H handler s0 token account amount maxSlot).result
        ≠ .exit c := by
  have hw : int_to_storage_word amount = .error .overflowError := by
    unfold int_to_storage_word
    rw [if_neg (by omega), if_neg (by omega)]
  have hmain : runMain H handler s0 token account amount maxSlot
      = ⟨.uncaught .overflowError, [RpcCall.ethCall token callData],
         [beforeLine b0], s1⟩ := by
    unfold runMain
    rw [hcd]
    simp [h0, hparse, hw]
  refine ⟨hw, hmain, ?_⟩
  intro c
  rw [hmain]
  simp

/-- Hex-digit portion of an address string: stripped of surrounding whitespace
and of a leading `0x` tag (the text `hex_to_bytes` decodes, before the
odd-length fix-up). -/
def hexBody (s : List Char) : List Char :=
  let t := pyStrip s
  if t.take 2 = ['0', 'x'] then t.drop 2 else t

lemma hex_to_bytes_eq_hexBody (s : List Char) :
    hex_to_bytes s =
      hexPairsToBytes
        (if (hexBody s).length % 2 = 1 then '0' :: hexBody s else hexBody s) := rfl

lemma hexPairsToBytes_ok : ∀ (n : Nat) (t : List Char), t.length ≤ n →
    (∀ c ∈ t, (hexDigitVal c).isSome) → t.length % 2 = 0 →
    ∃ bs, hexPairsToBytes t = some bs ∧ bs.length = t.length / 2 := by
  intro n
  induction n with
  | zero =>
    intro t hle _ _
    have : t = [] := List.length_eq_zero.1 (by omega)
    subst this
    exact ⟨[], rfl, rfl⟩
  | succ n ih =>
    intro t hle hall hev
    match t with
    | [] => exact ⟨[], rfl, rfl⟩
    | [c] => simp at hev
    | c1 :: c2 :: rest =>
      obtain ⟨d1, hd1⟩ := Option.isSome_iff_exists.1 (hall c1 (by simp))
      obtain ⟨d2, hd2⟩ := Option.isSome_iff_exists.1 (hall c2 (by simp))
      have hrest : rest.length ≤ n := by
        simp only [List.length_cons] at hle
        omega
      have hallr : ∀ c ∈ rest, (hexDigitVal c).isSome := by
        intro c hc
        exact hall c (by simp [hc])
      have hevr : rest.length % 2 = 0 := by
        simp only [List.length_cons] at hev
        omega
      obtain ⟨bs, hbs, hlbs⟩ := ih rest hrest hallr hevr
      refine ⟨(16 * d1 + d2) :: bs, ?_, ?_⟩
      · simp [hexPairsToBytes, hd1, hd2, hbs]
      · simp [hlbs]
        omega

/-- C9: when the hex-digit portion of an address (after stripping whitespace
and an optional `0x` tag) has odd length, the decoder prepends one `0` nibble;
in particular a 39-hex-digit account address decodes to 20 bytes and is
accepted by the address encoder without error. -/
theorem c9_odd_length_hex (s : List Char)
    (hodd : (hexBody s).length % 2 = 1)
    (hall : ∀ c ∈ hexBody s, (hexDigitVal c).isSome) :
    hex_to_bytes s = hexPairsToBytes ('0' :: hexBody s)
    ∧ ((hexBody s).length = 39 →
        ∃ bs, hex_to_bytes s = some bs ∧ bs.length = 20
          ∧ addr_to_bytes32 s = .ok (zpad32 bs)) := by
  have h1 : hex_to_bytes s = hexPairsToBytes ('0' :: hexBody s) := by
    rw [hex_to_bytes_eq_hexBody, if_pos hodd]
  refine ⟨h1, ?_⟩
  intro h39
  have hall' : ∀ c ∈ '0' :: hexBody s, (hexDigitVal c).isSome := by
    intro c hc
    rw [List.mem_cons] at hc
    rcases hc with h | h
    · subst h
      decide
    · exact hall c h
  have hev : ('0' :: hexBody s).length % 2 = 0 := by
    simp [h39]
  obtain ⟨bs, hbs, hlbs⟩ := hexPairsToBytes_ok (('0' :: hexBody s).length)
    ('0' :: hexBody s) le_rfl hall' hev
  have hfull : hex_to_bytes s = some bs := h1.trans hbs
  have hlen20 : bs.length = 20 := by
    rw [hlbs]
    simp [h39]
  refine ⟨bs, hfull, hlen20, ?_⟩
  unfold addr_to_bytes32
  rw [hfull]
  simp [hlen20]

/-- C6: inside one probe iteration, a failure of any of the four RPC calls —
the storage read, the storage write, the verifying `eth_call`, or the restore
write after a mismatch — stops the whole run at once with exit status 2: the
failing call is the last entry of the trace, and no retry and no further
probing happens. -/
theorem c6_rpc_failure_aborts {σ : Type} (ctx : Ctx σ) (i : Nat) (rest : List Nat)
    (s : σ) (tr : List RpcCall) (out : List (List Char)) (key : List Char)
    (hk : storageKeyOfIndex ctx.H ctx.account (i : Int) = .ok key) :
    (ctx.handler s (RpcCall.getStorage ctx.token key) = none →
        probeLoop ctx (i :: rest) s tr out
          = ⟨.exit 2, tr ++ [RpcCall.getStorage ctx.token key], out, s⟩)
    ∧ (∀ w1 s1,
        ctx.handler s (RpcCall.getStorage ctx.token key) = some (w1, s1) →
        ctx.handler s1 (RpcCall.setStorage ctx.token key ctx.desiredWord) = none →
        probeLoop ctx (i :: rest) s tr out
          = ⟨.exit 2,
             tr ++ [RpcCall.getStorage ctx.token key,
                    RpcCall.setStorage ctx.token key ctx.desiredWord], out, s1⟩)
    ∧ (∀ w1 s1 r2 s2,
        ctx.handler s (RpcCall.getStorage ctx.token key) = some (w1, s1) →
        ctx.handler s1 (RpcCall.setStorage ctx.token key ctx.desiredWord)
          = some (r2, s2) →
        ctx.handler s2 (RpcCall.ethCall ctx.token ctx.callData) = none →
        probeLoop ctx (i :: rest) s tr out
          = ⟨.exit 2,
             tr ++ [RpcCall.getStorage ctx.token key,
                    RpcCall.setStorage ctx.token key ctx.desiredWord,
                    RpcCall.ethCall ctx.token ctx.callData], out, s2⟩)
    ∧ (∀ w1 s1 r2 s2 a3 s3 af,
        ctx.handler s (RpcCall.getStorage ctx.token key) = some (w1, s1) →
        ctx.handler s1 (RpcCall.setStorage ctx.token key ctx.desiredWord)
          = some (r2, s2) →
        ctx.handler s2 (RpcCall.ethCall ctx.token ctx.callData) = some (a3, s3) →
        parseHexInt a3 = some af →
        (af : Int) ≠ ctx.amount →
        ctx.handler s3 (RpcCall.setStorage ctx.token key w1) = none →
        probeLoop ctx (i :: rest) s tr out
          = ⟨.exit 2,
             tr ++ [RpcCall.getStorage ctx.token key,
                    RpcCall.setStorage ctx.token key ctx.desiredWord,
                    RpcCall.ethCall ctx.token ctx.callData,
                    RpcCall.setStorage ctx.token key w1], out, s3⟩) := by
  refine ⟨?_, ?_, ?_, ?_⟩
  · intro hget
    simp only [probeLoop]
    rw [hk]
    simp [hget]
  · intro w1 s1 hget hset
    simp only [probeLoop]
    rw [hk]
    simp [hget, hset]
  · intro w1 s1 r2 s2 hget hset heth
    simp only [probeLoop]
    rw [hk]
    simp [hget, hset, heth]
  · intro w1 s1 r2 s2 a3 s3 af hget hset heth hparse hne hres
    simp only [probeLoop]
    rw [hk]
    simp [hget, hset, heth, hparse, hne, hres]

lemma probeLoop_mock_step
    (H : List Nat → List Nat) (token account callData desiredWord : List Char)
    (amount : Int) (b : List Nat) (store0 : List Char → List Char)
    (balKey : List Char) (b0 : Nat) (i : Nat) (idxs : List Nat) (s : MockNode)
    (tr : List RpcCall) (out : List (List Char))
    (hb : hex_to_bytes account = some b) (hlen : b.length = 20)
    (hi : i < 2 ^ 256) (hk : specKey H b i ≠ balKey)
    (hbal : parseHexInt (store0 balKey) = some b0) (hne : (b0 : Int) ≠ amount)
    (hsb : s.balKey = balKey) (hss : ∀ x, s.store x = store0 x) :
    probeLoop ⟨H, mockHandler, token, account, callData, desiredWord, amount⟩
        (i :: idxs) s tr out
      = probeLoop ⟨H, mockHandler, token, account, callData, desiredWord, amount⟩
        idxs
        ⟨fun x => if x = specKey H b i then s.store (specKey H b i)
                  else if x = specKey H b i then desiredWord else s.store x,
         s.balKey⟩
        (tr ++ [RpcCall.getStorage token (specKey H b i),
                RpcCall.setStorage token (specKey H b i) desiredWord,
                RpcCall.ethCall token callData,
                RpcCall.setStorage token (specKey H b i) (s.store (specKey H b i))])
        out := by
  have hkey := storageKeyOfIndex_ok H account b i hb hlen hi
  have hbalKey : (if balKey = specKey H b i then desiredWord else s.store balKey)
      = store0 balKey := by
    rw [if_neg (Ne.symm hk), hss]
  simp only [probeLoop]
  rw [hkey]
  simp only [mockHandler, hsb, hbalKey, hbal]
  rw [if_neg hne]

lemma probeLoop_mock_skip
    (H : List Nat → List Nat) (token account callData desiredWord : List Char)
    (amount : Int) (b : List Nat) (store0 : List Char → List Char)
    (balKey : List Char) (b0 : Nat)
    (hb : hex_to_bytes account = some b) (hlen : b.length = 20)
    (hbal : parseHexInt (store0 balKey) = some b0) (hne : (b0 : Int) ≠ amount) :
    ∀ (idxs1 idxs2 : List Nat) (s : MockNode)
      (tr : List RpcCall) (out : List (List Char)),
      (∀ i ∈ idxs1, i < 2 ^ 256) →
      (∀ i ∈ idxs1, specKey H b i ≠ balKey) →
      s.balKey = balKey → (∀ x, s.store x = store0 x) →
      ∃ s' : MockNode, s'.balKey = balKey ∧ (∀ x, s'.store x = store0 x) ∧
        probeLoop ⟨H, mockHandler, token, account, callData, desiredWord, amount⟩
            (idxs1 ++ idxs2) s tr out
          = probeLoop ⟨H, mockHandler, token, account, callData, desiredWord, amount⟩
            idxs2 s'
            (tr ++ idxs1.flatMap (probeBlock H b store0 token callData desiredWord))
            out := by
  intro idxs1
  induction idxs1 with
  | nil =>
    intro idxs2 s tr out _ _ hsb hss
    exact ⟨s, hsb, hss, by simp⟩
  | cons i idxs ih =>
    intro idxs2 s tr out hi hk hsb hss
    have hstep := probeLoop_mock_step H token account callData desiredWord amount
      b store0 balKey b0 i (idxs ++ idxs2) s tr out hb hlen
      (hi i (by simp)) (hk i (by simp)) hbal hne hsb hss
    rw [List.cons_append, hstep]
    have hss' : ∀ x, (if x = specKey H b i then s.store (specKey H b i)
        else if x = specKey H b i then desiredWord else s.store x) = store0 x := by
      intro x
      by_cases hx : x = specKey H b i
      · rw [if_pos hx, hss, hx]
      · rw [if_neg hx, if_neg hx, hss]
    obtain ⟨s', hsb', hss'', hrun⟩ := ih idxs2
      ⟨fun x => if x = specKey H b i then s.store (specKey H b i)
                else if x = specKey H b i then desiredWord else s.store x,
       s.balKey⟩
      (tr ++ [RpcCall.getStorage token (specKey H b i),
              RpcCall.setStorage token (specKey H b i) desiredWord,
              RpcCall.ethCall token callData,
              RpcCall.setStorage token (specKey H b i) (s.store (specKey H b i))])
      out
      (fun j hj => hi j (by simp [hj])) (fun j hj => hk j (by simp [hj])) hsb hss'
    refine ⟨s', hsb', hss'', ?_⟩
    rw [hrun]
    rw [List.flatMap_cons]
    rw [show probeBlock H b store0 token callData desiredWord i
        = [RpcCall.getStorage token (specKey H b i),
           RpcCall.setStorage token (specKey H b i) desiredWord,
           RpcCall.ethCall token callData,
           RpcCall.setStorage token (specKey H b i) (s.store (specKey H b i))] by
      simp [probeBlock, hss]]
    simp

/-- C7: against a responsive mock node whose balance cell is at a key no
probed index derives (and whose pre-change balance differs from the desired
amount), the run returns exit status 1; the trace is the initial `eth_call`
followed, for each index `0..max-slot` in order, by read / write / verify /
restore-the-saved-original-word; and the final storage map agrees with the
initial one at every key. -/
theorem c7_exhaustion_restores (H : List Nat → List Nat)
    (store0 : List Char → List Char) (balKey : List Char)
    (token account callData desiredWord : List Char)
    (b : List Nat) (amount maxSlot : Int) (b0 : Nat)
    (hb : hex_to_bytes account = some b) (hlen : b.length = 20)
    (hcd : encode_balance_of H account = .ok callData)
    (hdw : int_to_storage_word amount = .ok desiredWord)
    (hbal : parseHexInt (store0 balKey) = some b0)
    (hne : (b0 : Int) ≠ amount)
    (hms : (maxSlot + 1).toNat ≤ 2 ^ 256)
    (hkeys : ∀ i < (maxSlot + 1).toNat, specKey H b i ≠ balKey) :
    (runMain H mockHandler ⟨store0, balKey⟩ token account amount maxSlot).result
        = .exit 1
    ∧ (runMain H mockHandler ⟨store0, balKey⟩ token account amount maxSlot).trace
        = RpcCall.ethCall token callData
            :: (List.range (maxSlot + 1).toNat).flatMap
                 (probeBlock H b store0 token callData desiredWord)
    ∧ (runMain H mockHandler ⟨store0, balKey⟩ token account amount maxSlot).out
        = [beforeLine b0]
    ∧ ∀ x, (runMain H mockHandler ⟨store0, balKey⟩ token account
          amount maxSlot).state.store x = store0 x := by
  have hrm : runMain H mockHandler ⟨store0, balKey⟩ token account amount maxSlot
      = probeLoop ⟨H, mockHandler, token, account, callData, desiredWord, amount⟩
          (List.range (maxSlot + 1).toNat)
          ⟨store0, balKey⟩ [RpcCall.ethCall token callData] [beforeLine b0] := by
    unfold runMain
    rw [hcd]
    simp only [mockHandler, hbal, hdw]
  obtain ⟨s', hsb', hss', hrun⟩ :=
    probeLoop_mock_skip H token account callData desiredWord amount b store0
      balKey b0 hb hlen hbal hne
      (List.range (maxSlot + 1).toNat) []
      ⟨store0, balKey⟩ [RpcCall.ethCall token callData] [beforeLine b0]
      (fun i hi => by
        have := List.mem_range.1 hi
        omega)
      (fun i hi => hkeys i (List.mem_range.1 hi))
      rfl (fun _ => rfl)
  rw [List.append_nil] at hrun
  have hfinal : runMain H mockHandler ⟨store0, balKey⟩ token account amount maxSlot
      = ⟨.exit 1,
         RpcCall.ethCall token callData
           :: (List.range (maxSlot + 1).toNat).flatMap
                (probeBlock H b store0 token callData desiredWord),
         [beforeLine b0], s'⟩ := by
    rw [hrm, hrun]
    simp only [probeLoop]
    rfl
  rw [hfinal]
  exact ⟨rfl, rfl, rfl, hss'⟩

lemma range_split (n k : Nat) (hk : k < n) :
    List.range n = List.range k ++ (k :: List.range' (k + 1) (n - k - 1)) := by
  have h1 : (n - k) + k = n := by omega
  have h2 : n - k = (n - k - 1) + 1 := by omega
  calc List.range n = List.range' 0 n := List.range_eq_range' n
    _ = List.range' 0 ((n - k) + k) := by rw [h1]
    _ = List.range' 0 k ++ List.range' (0 + 1 * k) (n - k) :=
        (List.range'_append 0 k (n - k) 1).symm
    _ = List.range k ++ (k :: List.range' (k + 1) (n - k - 1)) := by
        rw [← List.range_eq_range']
        congr 1
        have h3 : 0 + 1 * k = k := by omega
        rw [h3, h2, List.range'_succ]
        have h4 : n - k - 1 + 1 - 1 = n - k - 1 := by omega
        rw [h4]

lemma int_to_storage_word_ok (amount : Int) (desiredWord : List Char)
    (ham : 0 ≤ amount) (hdw : int_to_storage_word amount = .ok desiredWord) :
    desiredWord = '0' :: 'x' :: bytesToHexChars (natToBE 32 amount.toNat)
      ∧ amount < 2 ^ 256 := by
  unfold int_to_storage_word at hdw
  rw [if_neg (by omega)] at hdw
  by_cases hlt : amount < 2 ^ 256
  · rw [if_pos hlt] at hdw
    simp only [Except.ok.injEq] at hdw
    exact ⟨hdw.symm, hlt⟩
  · rw [if_neg hlt] at hdw
    exact absurd hdw (by simp)

/-- C1: against a responsive mock node whose balance cell is at exactly the
key derived for index `k ≤ max-slot` (with the pre-change balance differing
from the desired amount, and the keys of the earlier indices distinct from
it), the run probes indices `0, 1, ..., k` in order, restores each earlier
index's saved original word, leaves the key of index `k` holding the desired
storage word, prints the discovered index `k`, and returns exit status 0. -/
theorem c1_success_scenario (H : List Nat → List Nat)
    (store0 : List Char → List Char)
    (token account callData desiredWord : List Char)
    (b : List Nat) (amount maxSlot : Int) (b0 k : Nat)
    (hb : hex_to_bytes account = some b) (hlen : b.length = 20)
    (hcd : encode_balance_of H account = .ok callData)
    (ham : 0 ≤ amount)
    (hdw : int_to_storage_word amount = .ok desiredWord)
    (hk : k < (maxSlot + 1).toNat)
    (hms : (maxSlot + 1).toNat ≤ 2 ^ 256)
    (hbal : parseHexInt (store0 (specKey H b k)) = some b0)
    (hne : (b0 : Int) ≠ amount)
    (hkeys : ∀ i < k, specKey H b i ≠ specKey H b k) :
    (runMain H mockHandler ⟨store0, specKey H b k⟩ token account
        amount maxSlot).result = .exit 0
    ∧ (runMain H mockHandler ⟨store0, specKey H b k⟩ token account
        amount maxSlot).trace
        = RpcCall.ethCall token callData
            :: ((List.range k).flatMap
                  (probeBlock H b store0 token callData desiredWord)
                ++ [RpcCall.getStorage token (specKey H b k),
                    RpcCall.setStorage token (specKey H b k) desiredWord,
                    RpcCall.ethCall token callData])
    ∧ (runMain H mockHandler ⟨store0, specKey H b k⟩ token account
        amount maxSlot).out
        = [beforeLine b0, okLine k, keyLine (specKey H b k),
           afterLine amount.toNat]
    ∧ (runMain H mockHandler ⟨store0, specKey H b k⟩ token account
        amount maxSlot).state.store (specKey H b k) = desiredWord
    ∧ ∀ x, x ≠ specKey H b k →
        (runMain H mockHandler ⟨store0, specKey H b k⟩ token account
          amount maxSlot).state.store x = store0 x := by
  obtain ⟨hdw', hamlt⟩ := int_to_storage_word_ok amount desiredWord ham hdw
  have hparsed : parseHexInt desiredWord = some amount.toNat := by
    rw [hdw']
    exact parseHexInt_word amount.toNat (by omega)
  have hrm : runMain H mockHandler ⟨store0, specKey H b k⟩ token account
        amount maxSlot
      = probeLoop ⟨H, mockHandler, token, account, callData, desiredWord, amount⟩
          (List.range (maxSlot + 1).toNat)
          ⟨store0, specKey H b k⟩ [RpcCall.ethCall token callData]
          [beforeLine b0] := by
    unfold runMain
    rw [hcd]
    simp only [mockHandler, hbal, hdw]
  obtain ⟨s', hsb', hss', hrun⟩ :=
    probeLoop_mock_skip H token account callData desiredWord amount b store0
      (specKey H b k) b0 hb hlen hbal hne
      (List.range k) (k :: List.range' (k + 1) ((maxSlot + 1).toNat - k - 1))
      ⟨store0, specKey H b k⟩ [RpcCall.ethCall token callData] [beforeLine b0]
      (fun i hi => by
        have := List.mem_range.1 hi
        omega)
      (fun i hi => hkeys i (List.mem_range.1 hi))
      rfl (fun _ => rfl)
  rw [← range_split (maxSlot + 1).toNat k hk] at hrun
  have hkk : storageKeyOfIndex H account (k : Int) = .ok (specKey H b k) :=
    storageKeyOfIndex_ok H account b k hb hlen (by omega)
  have hstep : probeLoop
        ⟨H, mockHandler, token, account, callData, desiredWord, amount⟩
        (k :: List.range' (k + 1) ((maxSlot + 1).toNat - k - 1)) s'
        ([RpcCall.ethCall token callData]
          ++ (List.range k).flatMap
               (probeBlock H b store0 token callData desiredWord))
        [beforeLine b0]
      = ⟨.exit 0,
         ([RpcCall.ethCall token callData]
           ++ (List.range k).flatMap
                (probeBlock H b store0 token callData desiredWord))
           ++ [RpcCall.getStorage token (specKey H b k),
               RpcCall.setStorage token (specKey H b k) desiredWord,
               RpcCall.ethCall token callData],
         [beforeLine b0] ++ [okLine k, keyLine (specKey H b k),
           afterLine amount.toNat],
         ⟨fun x => if x = specKey H b k then desiredWord else s'.store x,
          specKey H b k⟩⟩ := by
    simp only [probeLoop]
    rw [hkk]
    simp only [mockHandler, hsb', if_true]
    simp only [hparsed]
    rw [if_pos (show ((amount.toNat : Int) = amount) by omega)]
  rw [hrm, hrun, hstep]
  refine ⟨rfl, by simp, by simp, ?_, ?_⟩
  · simp
  · intro x hx
    simp only []
    rw [if_neg hx, hss']

/-- Byte string of `accW`. -/
def bW : List Nat :=
  [0, 17, 34, 51, 68, 85, 102, 119, 136, 153, 170, 187, 204, 221, 238, 255,
   0, 17, 34, 51]

/-- Call data of `balanceOf(accW)` under `hashW` (whose selector is empty,
since the signature hash has fewer than 36 bytes). -/
def cdW : List Char := bytes_to_hex (List.replicate 12 0 ++ bW)

/-- Desired storage word of amount 7. -/
def dwW : List Char := '0' :: 'x' :: bytesToHexChars (natToBE 32 7)

/-- Concrete 19-byte (38 hex digit) account address: too short. -/
def accBad : List Char := "0x00112233445566778899aabbccddeeff001122".toList

/-- Byte string of `accBad`. -/
def bBad : List Nat :=
  [0, 17, 34, 51, 68, 85, 102, 119, 136, 153, 170, 187, 204, 221, 238, 255,
   0, 17, 34]

/-- Concrete 39-hex-digit account address (odd length, non-canonical). -/
def acc39 : List Char := "0x0112233445566778899aabbccddeeff00112233".toList

/-- Handler that fails every call. -/
def failHandler : Unit → RpcCall → Option (List Char × Unit) := fun _ _ => none

/-- Run context whose handler counts calls and fails exactly on call `m`. -/
def ctxFail (m : Nat) : Ctx Nat :=
  ⟨hashW,
   fun s c =>
     if s = m then none
     else some ((match c with
       | RpcCall.ethCall _ _ => zeroWord
       | RpcCall.getStorage _ _ => zeroWord
       | RpcCall.setStorage _ _ _ => "0x1".toList), s + 1),
   tokW, accW, cdW, zeroWord, 7⟩

/-- Storage key of index 0 under `hashW` for account `accW`. -/
def key0W : List Char := specKey hashW bW 0

/-- Witness for C1 at the spec's scenario: true slot 3, `--max-slot 5`. -/
theorem c1_success_scenario_witness :
    (runMain hashW mockHandler ⟨fun _ => zeroWord, specKey hashW bW 3⟩ tokW accW
        7 5).result = .exit 0
    ∧ (runMain hashW mockHandler ⟨fun _ => zeroWord, specKey hashW bW 3⟩ tokW accW
        7 5).out
        = [beforeLine 0, okLine 3, keyLine (specKey hashW bW 3), afterLine 7] := by
  have h := c1_success_scenario hashW (fun _ => zeroWord) tokW accW cdW dwW bW
    7 5 0 3 (by decide) (by decide) rfl (by decide) rfl (by decide) (by decide)
    rfl (by decide) (by decide)
  exact ⟨h.1, h.2.2.1⟩

/-- Witness for C2 at index 5 and account `accW`. -/
theorem c2_storage_key_derivation_witness :
    storageKeyOfIndex hashW accW 5 = .ok (specKey hashW bW 5) := by
  have h := c2_storage_key_derivation hashW accW bW 5 (by decide) (by decide)
    (by decide) (by decide)
  exact h.1

/-- Witness for the amended C3: amount `-1` against a responsive node. -/
theorem c3_negative_inputs_amended_witness :
    int_to_storage_word (-1) = .error .valueError
    ∧ runMain hashW mockHandler nodeW tokW accW (-1) 2
        = ⟨.uncaught .valueError, [RpcCall.ethCall tokW cdW],
           [beforeLine 0], nodeW⟩ := by
  have h := c3_negative_inputs_amended hashW mockHandler nodeW nodeW tokW accW
    cdW zeroWord (-1) 2 0 rfl rfl rfl (by decide)
  exact ⟨h.1, h.2.2⟩

/-- Witness for C4: a 19-byte address is rejected before any RPC call. -/
theorem c4_bad_address_rejected_witness :
    runMain hashW mockHandler nodeW tokW accBad 7 2
      = ⟨.uncaught .valueError, [], [], nodeW⟩ :=
  c4_bad_address_rejected hashW mockHandler nodeW tokW accBad 7 2 bBad
    (by decide) (by decide)

/-- Witness for C5: a handler that fails the initial call. -/
theorem c5_initial_call_failure_witness :
    runMain hashW failHandler () tokW accW 7 2
      = ⟨.exit 2, [RpcCall.ethCall tokW cdW], [], ()⟩ :=
  (c5_initial_call_failure hashW failHandler () tokW accW cdW 7 2 rfl rfl).1

/-- Witness for C6: four runs whose handler fails at each of the four RPC
calls of the first probe iteration. -/
theorem c6_rpc_failure_aborts_witness :
    probeLoop (ctxFail 0) [0] 0 [] []
      = ⟨.exit 2, [RpcCall.getStorage tokW key0W], [], 0⟩
    ∧ probeLoop (ctxFail 1) [0] 0 [] []
      = ⟨.exit 2, [RpcCall.getStorage tokW key0W,
          RpcCall.setStorage tokW key0W zeroWord], [], 1⟩
    ∧ probeLoop (ctxFail 2) [0] 0 [] []
      = ⟨.exit 2, [RpcCall.getStorage tokW key0W,
          RpcCall.setStorage tokW key0W zeroWord,
          RpcCall.ethCall tokW cdW], [], 2⟩
    ∧ probeLoop (ctxFail 3) [0] 0 [] []
      = ⟨.exit 2, [RpcCall.getStorage tokW key0W,
          RpcCall.setStorage tokW key0W zeroWord,
          RpcCall.ethCall tokW cdW,
          RpcCall.setStorage tokW key0W zeroWord], [], 3⟩ := by
  refine ⟨?_, ?_, ?_, ?_⟩
  · exact (c6_rpc_failure_aborts (ctxFail 0) 0 [] 0 [] [] key0W rfl).1 rfl
  · exact (c6_rpc_failure_aborts (ctxFail 1) 0 [] 0 [] [] key0W rfl).2.1
      zeroWord 1 rfl rfl
  · exact (c6_rpc_failure_aborts (ctxFail 2) 0 [] 0 [] [] key0W rfl).2.2.1
      zeroWord 1 ("0x1".toList) 2 rfl rfl rfl
  · exact (c6_rpc_failure_aborts (ctxFail 3) 0 [] 0 [] [] key0W rfl).2.2.2
      zeroWord 1 ("0x1".toList) 2 zeroWord 3 0 rfl rfl rfl rfl (by decide) rfl

/-- Witness for C7: no key in `[0..2]` is the balance cell. -/
theorem c7_exhaustion_restores_witness :
    (runMain hashW mockHandler ⟨fun _ => zeroWord, ['k']⟩ tokW accW 7 2).result
      = .exit 1 :=
  (c7_exhaustion_restores hashW (fun _ => zeroWord) ['k'] tokW accW cdW dwW bW
    7 2 0 (by decide) (by decide) rfl rfl rfl (by decide) (by decide)
    (by decide)).1

/-- Witness for C9: a 39-hex-digit address decodes to 20 bytes. -/
theorem c9_odd_length_hex_witness :
    ∃ bs, hex_to_bytes acc39 = some bs ∧ bs.length = 20
      ∧ addr_to_bytes32 acc39 = .ok (zpad32 bs) :=
  (c9_odd_length_hex acc39 (by decide) (by decide)).2 (by decide)

/-- Witness for C10: amount `2^256` against a responsive node. -/
theorem c10_amount_overflow_witness :
    int_to_storage_word (2 ^ 256) = .error .overflowError
    ∧ runMain hashW mockHandler nodeW tokW accW (2 ^ 256) 2
        = ⟨.uncaught .overflowError, [RpcCall.ethCall tokW cdW],
           [beforeLine 0], nodeW⟩ := by
  have h := c10_amount_overflow hashW mockHandler nodeW nodeW tokW accW cdW
    zeroWord (2 ^ 256) 2 0 rfl rfl rfl (le_refl _)
  exact ⟨h.1, h.2.1⟩
